import Mathlib

/-!
Shallow embedding of `src/whatif.py` (class `QueryPlanModifier` and its
helpers).  Plan trees are the nested dictionaries PostgreSQL EXPLAIN
produces: each node has a `'Node Type'`, an optional `'Relation Name'`,
four numeric cost fields and an optional `'Plans'` list of children.
Python object identities (`id(node)`) are modelled as a stored `nid`
field; numeric values as rationals; operations that can raise
(`dict[key]`, `list[0]`, division) return `Except`.
-/

namespace WhatIf

/-- One node of a plan tree: the dict
`{'Node Type', 'Relation Name'?, 'Startup Cost', 'Total Cost',
  'Plan Rows', 'Plan Width', 'Plans'?}`.
`plans = none` models the `'Plans'` key being absent (leaf dicts),
`plans = some l` the key holding the list `l`.  `nid` stands for the
Python object identity `id(node)` used as the node's lookup key. -/
inductive PNode : Type where
  | mk (nid : Nat) (nodeType : String) (relationName : Option String)
       (startupCost totalCost planRows planWidth : ℚ)
       (plans : Option (List PNode))

def PNode.nid : PNode → Nat
  | .mk i _ _ _ _ _ _ _ => i

def PNode.nodeType : PNode → String
  | .mk _ t _ _ _ _ _ _ => t

def PNode.relationName : PNode → Option String
  | .mk _ _ r _ _ _ _ _ => r

def PNode.startupCost : PNode → ℚ
  | .mk _ _ _ sc _ _ _ _ => sc

def PNode.totalCost : PNode → ℚ
  | .mk _ _ _ _ tc _ _ _ => tc

def PNode.planRows : PNode → ℚ
  | .mk _ _ _ _ _ pr _ _ => pr

def PNode.planWidth : PNode → ℚ
  | .mk _ _ _ _ _ _ pw _ => pw

def PNode.plans : PNode → Option (List PNode)
  | .mk _ _ _ _ _ _ _ ps => ps

/-- `node['Plans'] = l` — (re)binds the `'Plans'` key. -/
def PNode.setPlans : PNode → List PNode → PNode
  | .mk i t r sc tc pr pw _, l => .mk i t r sc tc pr pw (some l)

/-- `node['Node Type'] = s`. -/
def PNode.setType : PNode → String → PNode
  | .mk i _ r sc tc pr pw ps, s => .mk i s r sc tc pr pw ps

/-- The outer envelope `{'Plan': root}` the planner returns. -/
structure Plan : Type where
  root : PNode

/-- `PlanModification` (the dataclass): one recorded change. -/
structure PlanModification : Type where
  node_id : Nat
  current_type : String
  target_type : String
  affected_tables : List String
deriving DecidableEq

/-- The mutable state of a `QueryPlanModifier` instance:
`original_plan`, `modified_plan` (each `None` until set) and the
`modifications` list. -/
structure QueryPlanModifier : Type where
  original_plan : Option Plan
  modified_plan : Option Plan
  modifications : List PlanModification

/-- `set_original_plan`: stores deep copies of `plan` in both slots.
(The modification log is left as it was — the method does not touch
`self.modifications`.) -/
def setOriginalPlan (s : QueryPlanModifier) (p : Plan) : QueryPlanModifier :=
  { s with original_plan := some p, modified_plan := some p }

/-! ### Node lookup

`modify_join_order`'s inner `find_node` / `traverse`: pre-order
depth-first search for the node whose identity matches, descending via
`node.get('Plans', [])`.  (The Python helper also tracks the parent,
which the caller collects but never uses; the parent is omitted.) -/

mutual

def findNode : PNode → Nat → Option PNode
  | .mk nid t r sc tc pr pw ps, i =>
    if nid = i then some (.mk nid t r sc tc pr pw ps)
    else
      match ps with
      | none => none
      | some children => findNodeList children i

def findNodeList : List PNode → Nat → Option PNode
  | [], _ => none
  | n :: rest, i =>
    match findNode n i with
    | some x => some x
    | none => findNodeList rest i

end

/-! ### `modify_join_order` -/

/-!
One iteration of the reordering loop is
`nodes[i]['Plans'], nodes[i+1]['Plans'] = nodes[i+1]['Plans'], nodes[i]['Plans']`.
The right-hand side is evaluated first, so if either node lacks the
`'Plans'` key the iteration raises `KeyError` before assigning anything.
`swapChildLists` rewrites the tree so that the node identified by `i`
carries `pi` and the node identified by `j` carries `pj`; the inserted
lists are taken as given (they were read from the same tree), matching
Python's in-place aliased assignment for nodes in disjoint subtrees.
-/

mutual

def swapChildLists : PNode → Nat → List PNode → Nat → List PNode → PNode
  | .mk nid t r sc tc pr pw ps, i, pi, j, pj =>
    if nid = i then .mk nid t r sc tc pr pw (some pi)
    else if nid = j then .mk nid t r sc tc pr pw (some pj)
    else
      match ps with
      | none => .mk nid t r sc tc pr pw none
      | some children =>
        .mk nid t r sc tc pr pw (some (swapChildListsAll children i pi j pj))

def swapChildListsAll : List PNode → Nat → List PNode → Nat → List PNode → List PNode
  | [], _, _, _, _ => []
  | n :: rest, i, pi, j, pj =>
    swapChildLists n i pi j pj :: swapChildListsAll rest i pi j pj

end

/-- One adjacent pairwise swap on the current tree: look the two nodes
up, read both `'Plans'` values (a missing key raises `KeyError`), then
exchange them. -/
def swapStep (t : PNode) (i j : Nat) : Except String PNode :=
  match findNode t i, findNode t j with
  | some ni, some nj =>
    match ni.plans, nj.plans with
    | some pi, some pj => .ok (swapChildLists t i pj j pi)
    | _, _ => .error "KeyError"
  | _, _ => .error "KeyError"

/-- The reordering loop over the adjacent pairs.  An exception inside an
iteration is caught by the surrounding `try`/`except`, which returns
`False` — the swaps already performed are NOT rolled back. -/
def swapLoop : PNode → List (Nat × Nat) → PNode × Bool
  | t, [] => (t, true)
  | t, (i, j) :: rest =>
    match swapStep t i j with
    | .ok t' => swapLoop t' rest
    | .error _ => (t, false)

/-- `modify_join_order(node_ids)`: returns `False` if no plan is set;
collects every id first and returns `False` (tree untouched) if any
fails to resolve; then performs the adjacent pairwise child-list swaps
in sequence. -/
def modifyJoinOrder (s : QueryPlanModifier) (ids : List Nat) :
    QueryPlanModifier × Bool :=
  match s.modified_plan with
  | none => (s, false)
  | some p =>
    if ids.all (fun i => (findNode p.root i).isSome) then
      let res := swapLoop p.root (ids.zip ids.tail)
      ({ s with modified_plan := some ⟨res.1⟩ }, res.2)
    else (s, false)

/-! ### `modify_operator` -/

/-- `[node.get('Relation Name')] if 'Relation Name' in node else []`. -/
def relTables : Option String → List String
  | some r => [r]
  | none => []

/-!
`traverse_and_modify` is a pre-order search for the node with matching
identity; on the first match it overwrites that node's `'Node Type'`,
records the `PlanModification`, and stops.  It returns the rewritten
tree and the recorded entry (`none` when nothing matched, i.e. the
Python function returned `False`).
-/

mutual

def traverseAndModify : PNode → Nat → String → PNode × Option PlanModification
  | .mk nid t r sc tc pr pw ps, i, newType =>
    if nid = i then
      (.mk nid newType r sc tc pr pw ps, some ⟨i, t, newType, relTables r⟩)
    else
      match ps with
      | none => (.mk nid t r sc tc pr pw none, none)
      | some children =>
        let res := traverseAndModifyList children i newType
        (.mk nid t r sc tc pr pw (some res.1), res.2)

def traverseAndModifyList :
    List PNode → Nat → String → List PNode × Option PlanModification
  | [], _, _ => ([], none)
  | n :: rest, i, newType =>
    let rn := traverseAndModify n i newType
    match rn.2 with
    | some m => (rn.1 :: rest, some m)
    | none =>
      let rr := traverseAndModifyList rest i newType
      (rn.1 :: rr.1, rr.2)

end

/-- `modify_operator(node_id, new_type)`: `False` if no plan is set;
otherwise walks the working tree, rewrites the first matching node's
`'Node Type'` and appends one `PlanModification` to the log. -/
def modifyOperator (s : QueryPlanModifier) (i : Nat) (newType : String) :
    QueryPlanModifier × Bool :=
  match s.modified_plan with
  | none => (s, false)
  | some p =>
    let res := traverseAndModify p.root i newType
    match res.2 with
    | some m =>
      ({ s with modified_plan := some ⟨res.1⟩,
                modifications := s.modifications ++ [m] }, true)
    | none => (s, false)

/-- `reset_modifications`: `modified` becomes a fresh deep copy of
`original`; the log is cleared. -/
def resetModifications (s : QueryPlanModifier) : QueryPlanModifier :=
  { s with modified_plan := s.original_plan, modifications := [] }

/-! ### `generate_planner_hints` -/

/-- Python's `"sub" in s` on strings: substring containment. -/
def strContains (s sub : String) : Bool :=
  s.data.tails.any fun suffix => sub.data.isPrefixOf suffix

/-- `s.replace(' ', '')` for the single-character pattern `' '`:
every space is removed. -/
def stripSpaces (s : String) : String :=
  String.mk (s.data.filter fun c => c ≠ ' ')

/-- `s.lower()` (the operator-kind strings are ASCII). -/
def strLower (s : String) : String :=
  String.mk (s.data.map Char.toLower)

/-- `f"enable_{kind.lower().replace(' ', '')}"`. -/
def hintKey (kind : String) : String :=
  "enable_" ++ stripSpaces (strLower kind)

/-- `d[k] = v` on a Python dict: overwrite the existing binding,
else append a new one (insertion order preserved). -/
def dictSet (d : List (String × Bool)) (k : String) (v : Bool) :
    List (String × Bool) :=
  if d.any fun p => p.1 = k then
    d.map fun p => if p.1 = k then (k, v) else p
  else d ++ [(k, v)]

/-- `d.get(k)`-style lookup. -/
def dictGet (d : List (String × Bool)) (k : String) : Option Bool :=
  (d.find? fun p => p.1 = k).map Prod.snd

/-- `{method.value: True for method in PlannerMethod}` in enum
declaration order. -/
def defaultHints : List (String × Bool) :=
  [("enable_hashjoin", true), ("enable_mergejoin", true),
   ("enable_nestloop", true), ("enable_indexscan", true),
   ("enable_seqscan", true), ("enable_bitmapscan", true)]

/-- The body of `generate_planner_hints`'s loop for one modification:
when the types differ, disable the key derived from the current type if
it mentions `"Join"` or `"Scan"`, then enable the key derived from the
target type under the same test. -/
def applyModToHints (hints : List (String × Bool)) (m : PlanModification) :
    List (String × Bool) :=
  if m.current_type ≠ m.target_type then
    let hints :=
      if strContains m.current_type "Join" then
        dictSet hints (hintKey m.current_type) false
      else if strContains m.current_type "Scan" then
        dictSet hints (hintKey m.current_type) false
      else hints
    if strContains m.target_type "Join" then
      dictSet hints (hintKey m.target_type) true
    else if strContains m.target_type "Scan" then
      dictSet hints (hintKey m.target_type) true
    else hints
  else hints

/-- `generate_planner_hints(modifications)`. -/
def generatePlannerHints (mods : List PlanModification) :
    List (String × Bool) :=
  mods.foldl applyModToHints defaultHints

/-! ### `generate_modified_sql` -/

/-- The join-hint pass: for each modification whose target mentions
`"Join"`, append `f"{target.replace(' ', '')}({','.join(tables)}) "`. -/
def joinHintPass (mods : List PlanModification) (acc : String) : String :=
  mods.foldl
    (fun acc m =>
      if strContains m.target_type "Join" then
        acc ++ stripSpaces m.target_type ++ "("
            ++ (String.intercalate "," m.affected_tables) ++ ") "
      else acc)
    acc

/-- The scan-hint pass: for each modification whose target mentions
`"Scan"`, append `f"{target.replace(' ', '')}({tables[0]}) "` —
`tables[0]` raises `IndexError` when `affected_tables` is empty. -/
def scanHintPass : List PlanModification → String → Except String String
  | [], acc => .ok acc
  | m :: rest, acc =>
    if strContains m.target_type "Scan" then
      match m.affected_tables with
      | [] => .error "IndexError"
      | t0 :: _ =>
        scanHintPass rest
          (acc ++ stripSpaces m.target_type ++ "(" ++ t0 ++ ") ")
    else scanHintPass rest acc

/-- `generate_modified_sql(original_sql)`: builds `"/*+ ...join hints...
...scan hints... */ "` and prefixes it to the query.  (The call to
`generate_planner_hints` whose result is discarded is kept.) -/
def generateModifiedSql (mods : List PlanModification) (originalSql : String) :
    Except String String :=
  let _hints := generatePlannerHints mods
  let withJoins := joinHintPass mods "/*+ "
  (scanHintPass mods withJoins).map fun s => s ++ "*/ " ++ originalSql

/-! ### `compare_plans` -/

/-- The four root metrics `extract_metrics` reads
(`plan['Plan'].get(field, 0)`; in this model every field is present). -/
structure Metrics : Type where
  total_cost : ℚ
  startup_cost : ℚ
  plan_rows : ℚ
  plan_width : ℚ
deriving DecidableEq

def extractMetrics (p : Plan) : Metrics :=
  ⟨p.root.totalCost, p.root.startupCost, p.root.planRows, p.root.planWidth⟩

/-- The comparison record `compare_plans` builds. -/
structure Comparison : Type where
  cost_difference : ℚ
  cost_percentage : ℚ
  original_metrics : Metrics
  modified_metrics : Metrics
deriving DecidableEq

/-- Python's `/`: raises `ZeroDivisionError` when the divisor is zero. -/
def pyDiv (a b : ℚ) : Except String ℚ :=
  if b = 0 then .error "ZeroDivisionError" else .ok (a / b)

/-- `compare_plans()`: `{}` (here `none`) when either snapshot is unset;
otherwise the record with `cost_difference` and
`cost_percentage = (modified - original) / original * 100` — the
division is unguarded. -/
def comparePlans (s : QueryPlanModifier) : Except String (Option Comparison) :=
  match s.original_plan, s.modified_plan with
  | some o, some m =>
    let om := extractMetrics o
    let mm := extractMetrics m
    (pyDiv (mm.total_cost - om.total_cost) om.total_cost).map fun q =>
      some ⟨mm.total_cost - om.total_cost, q * 100, om, mm⟩
  | _, _ => .ok none

/-! ### Observables and example plans used by the theorems -/

/-- The child-id list of the node identified by `i` (with the outer
`Option` distinguishing an absent node and the inner one an absent
`Plans` key): a decidable observable of the working tree. -/
def childIdsAt (op : Option Plan) (i : Nat) : Option (Option (List Nat)) :=
  op.bind fun p =>
    (findNode p.root i).map fun n => n.plans.map fun l => l.map PNode.nid

/-- A leaf scanning relation `a` (a leaf dict has no `Plans` key). -/
def exLeafA : PNode := .mk 4 "Seq Scan" (some "a") 1 10 100 8 none

/-- A leaf scanning relation `b`. -/
def exLeafB : PNode := .mk 5 "Index Scan" (some "b") 2 20 200 16 none

/-- A join node whose child list is `[exLeafA]`. -/
def exJoinA : PNode := .mk 1 "Hash Join" none 3 30 300 24 (some [exLeafA])

/-- A join node whose child list is `[exLeafB]`. -/
def exJoinB : PNode := .mk 2 "Merge Join" none 4 40 400 32 (some [exLeafB])

/-- A leaf scanning relation `c` — it carries no `Plans` key. -/
def exScanC : PNode := .mk 3 "Seq Scan" (some "c") 5 50 500 40 none

/-- A root with the three labelled nodes above as children. -/
def exRoot : PNode :=
  .mk 0 "Nested Loop" none 6 60 600 48 (some [exJoinA, exJoinB, exScanC])

def exPlan : Plan := ⟨exRoot⟩

/-- A modifier holding `exPlan` in both snapshots, empty log. -/
def exState : QueryPlanModifier := ⟨some exPlan, some exPlan, []⟩

/-- A recorded modification whose target is a scan kind and whose
`affected_tables` list is empty (what `modify_operator` records for a
node without a `Relation Name`). -/
def exScanNoTable : PlanModification := ⟨9, "Seq Scan", "Index Scan", []⟩

/-! ## Claims -/

/-- C1: the claim says a zero-cost baseline yields a defined sentinel
percentage and never a divide-by-zero fault.  The code divides by the
original root Total Cost without any guard: with original Total Cost 0
and modified Total Cost 50, `compare_plans` propagates
`ZeroDivisionError` instead of returning a comparison record. -/
theorem C1_zero_baseline_raises :
    comparePlans ⟨some ⟨.mk 0 "Seq Scan" (some "t") 0 0 100 8 none⟩,
                  some ⟨.mk 0 "Seq Scan" (some "t") 0 50 100 8 none⟩, []⟩
      = .error "ZeroDivisionError" := rfl

/-- C2 counterexample: starting from a modifier whose log holds one
entry, `set_original_plan` leaves the log non-empty — it does not clear
it, contradicting the claim. -/
theorem C2_log_not_cleared_cex :
    (setOriginalPlan ⟨none, none, [exScanNoTable]⟩ exPlan).modifications ≠ [] := by
  decide

/-- C2 (amended): for every plan `p` and every prior state,
`set_original_plan(p)` establishes both snapshots as (deep copies of)
`p`, but leaves the modification log exactly as it was. -/
theorem C2_set_original_plan_spec (s : QueryPlanModifier) (p : Plan) :
    (setOriginalPlan s p).original_plan = some p ∧
    (setOriginalPlan s p).modified_plan = some p ∧
    (setOriginalPlan s p).modifications = s.modifications :=
  ⟨rfl, rfl, rfl⟩

/-- C3 counterexample: a successful `modify_join_order` (swapping the
child lists of nodes 1 and 2 of the example plan) returns `True` yet
appends nothing to the modification log. -/
theorem C3_join_reorder_unlogged_cex :
    (modifyJoinOrder exState [1, 2]).2 = true ∧
    (modifyJoinOrder exState [1, 2]).1.modifications = [] := by
  exact ⟨by decide, by decide⟩

/-- C3 (amended): a successful `modify_operator` appends exactly one
record to the modification log, but `modify_join_order` never touches
the log — join reorders are not recorded. -/
theorem C3_logging_spec (s : QueryPlanModifier) (i : Nat) (K : String)
    (ids : List Nat) :
    ((modifyOperator s i K).2 = true →
      ∃ m, (modifyOperator s i K).1.modifications = s.modifications ++ [m]) ∧
    (modifyJoinOrder s ids).1.modifications = s.modifications := by
  constructor
  · intro h
    rcases hmp : s.modified_plan with _ | p
    · simp only [modifyOperator, hmp] at h
      cases h
    · rcases hres : (traverseAndModify p.root i K).2 with _ | m
      · simp only [modifyOperator, hmp, hres] at h
        cases h
      · exact ⟨m, by simp only [modifyOperator, hmp, hres]⟩
  · rcases hmp : s.modified_plan with _ | p
    · simp only [modifyJoinOrder, hmp]
    · simp only [modifyJoinOrder, hmp]
      split <;> rfl

/-- C5 counterexample: for the single modification with old kind
`Nested Loop` (the nested-loop join kind) and new kind `Hash Join`, the
claim demands that the method matching the old kind be disabled, i.e.
`enable_nestloop = False`.  The code tests `"Join" in kind` /
`"Scan" in kind`, and `Nested Loop` contains neither substring, so
`enable_nestloop` keeps its default `True`. -/
theorem C5_nestloop_untouched_cex :
    dictGet (generatePlannerHints [⟨7, "Nested Loop", "Hash Join", []⟩])
        "enable_nestloop" = some true := by
  decide

/-- C5 (amended): `generate_planner_hints` starts from the six methods
enabled; each modification with differing kinds disables/enables the
key `"enable_" ++ lowercase(kind, spaces removed)` only when the kind
string contains `"Join"` or `"Scan"`; `Nested Loop` contains neither,
so a modification whose old or new kind is `Nested Loop` never toggles
`enable_nestloop` (its old kind side toggles nothing at all). -/
theorem C5_hint_synthesis_spec :
    generatePlannerHints [] = defaultHints ∧
    (∀ (mods : List PlanModification) (m : PlanModification),
      generatePlannerHints (mods ++ [m])
        = applyModToHints (generatePlannerHints mods) m) ∧
    (∀ (hints : List (String × Bool)) (n : Nat) (tbls : List String),
      applyModToHints hints ⟨n, "Hash Join", "Merge Join", tbls⟩
        = dictSet (dictSet hints "enable_hashjoin" false)
            "enable_mergejoin" true) ∧
    (∀ (hints : List (String × Bool)) (n : Nat) (tbls : List String),
      applyModToHints hints ⟨n, "Nested Loop", "Hash Join", tbls⟩
        = dictSet hints "enable_hashjoin" true) ∧
    (∀ (hints : List (String × Bool)) (n : Nat) (tbls : List String),
      applyModToHints hints ⟨n, "Hash Join", "Nested Loop", tbls⟩
        = dictSet hints "enable_hashjoin" false) := by
  refine ⟨rfl, ?_, fun hints n tbls => rfl, fun hints n tbls => rfl,
          fun hints n tbls => rfl⟩
  intro mods m
  simp [generatePlannerHints, List.foldl_append]

/-- C6: on the two-edit log Seq Scan to Index Scan then Index Scan to
Seq Scan over the same relation, the resulting mapping carries only the
net effect of the later modification: `enable_seqscan = True` and
`enable_indexscan = False` (as set by the second edit), all other
methods at their defaults — last-write-wins in log order. -/
theorem C6_hint_precedence :
    generatePlannerHints
        [⟨4, "Seq Scan", "Index Scan", ["a"]⟩,
         ⟨4, "Index Scan", "Seq Scan", ["a"]⟩]
      = [("enable_hashjoin", true), ("enable_mergejoin", true),
         ("enable_nestloop", true), ("enable_indexscan", false),
         ("enable_seqscan", true), ("enable_bitmapscan", true)] := by
  decide

/-- C4 counterexample: node 3 of the example plan resolves but is a
leaf without a `Plans` key.  `modify_join_order [1, 2, 3]` swaps the
child lists of 1 and 2, then raises `KeyError` on node 3, which the
broad `except` turns into `False` — yet node 1 now carries node 2's
old child (id 5) instead of its own (id 4): failure with a silent
partial mutation. -/
theorem C4_partial_mutation_cex :
    (modifyJoinOrder exState [1, 2, 3]).2 = false ∧
    childIdsAt (modifyJoinOrder exState [1, 2, 3]).1.modified_plan 1
      = some (some [5]) ∧
    childIdsAt exState.modified_plan 1 = some (some [4]) := by
  exact ⟨by decide, by decide, by decide⟩

/-- C4 (amended): when `modify_join_order` fails because no plan is set
or because some id in the list does not resolve against the working
tree, the whole state is returned unchanged; a failure arising later,
in the swap phase, can instead leave earlier pairwise swaps applied. -/
theorem C4_unresolved_id_is_noop (s : QueryPlanModifier) (ids : List Nat)
    (h : s.modified_plan = none ∨
      ∃ p, s.modified_plan = some p ∧
        ids.all (fun i => (findNode p.root i).isSome) = false) :
    modifyJoinOrder s ids = (s, false) := by
  rcases h with h | ⟨p, hp, hall⟩
  · simp only [modifyJoinOrder, h]
  · simp only [modifyJoinOrder, hp, hall]
    rfl

/-- C4 witness: id 99 resolves nowhere in the example plan, so the
reorder fails and returns the state untouched. -/
theorem C4_unresolved_id_is_noop_witness :
    modifyJoinOrder exState [1, 99] = (exState, false) :=
  C4_unresolved_id_is_noop exState [1, 99] (Or.inr ⟨exPlan, rfl, by decide⟩)

/-- The scan-hint pass raises `IndexError` whenever some modification
targets a scan kind with an empty `affected_tables` list (every failure
of the pass is that `IndexError`). -/
theorem scanHintPass_error (mods : List PlanModification)
    (h : ∃ m ∈ mods, strContains m.target_type "Scan" = true ∧
      m.affected_tables = []) :
    ∀ acc, scanHintPass mods acc = .error "IndexError" := by
  induction mods with
  | nil => rcases h with ⟨m, hm, _⟩; cases hm
  | cons m0 rest ih =>
    intro acc
    rcases h with ⟨m, hm, hscan, htbl⟩
    rcases List.mem_cons.mp hm with rfl | hrest
    · simp only [scanHintPass, hscan, htbl, if_true]
    · by_cases h0 : strContains m0.target_type "Scan" = true
      · rcases htbl0 : m0.affected_tables with _ | ⟨t0, ts⟩
        · simp only [scanHintPass, h0, htbl0, if_true]
        · simp only [scanHintPass, h0, htbl0, if_true]
          exact ih ⟨m, hrest, hscan, htbl⟩ _
      · simp only [scanHintPass, if_neg h0]
        exact ih ⟨m, hrest, hscan, htbl⟩ _

/-- C10: if the log holds a modification whose target is a scan kind
with an empty `affected_tables` (as `modify_operator` records for a
node carrying no `Relation Name`), then `generate_modified_sql` raises
an uncaught `IndexError` (`mod.affected_tables[0]`) instead of
returning an annotated SQL string. -/
theorem C10_scan_hint_index_error (mods : List PlanModification)
    (sql : String)
    (h : ∃ m ∈ mods, strContains m.target_type "Scan" = true ∧
      m.affected_tables = []) :
    generateModifiedSql mods sql = .error "IndexError" := by
  have hs := scanHintPass_error mods h
  simp only [generateModifiedSql, hs]
  rfl

/-- C10 witness: one scan-targeting modification with no affected
tables makes `generate_modified_sql` raise. -/
theorem C10_scan_hint_index_error_witness :
    generateModifiedSql [exScanNoTable] "SELECT 1" = .error "IndexError" :=
  C10_scan_hint_index_error [exScanNoTable] "SELECT 1"
    ⟨exScanNoTable, by decide, by decide, by decide⟩

/-! ### C8: reset round-trips -/

/-- A user-level mutation request: an operator change or a join
reorder. -/
inductive Op : Type where
  | operator (i : Nat) (newType : String) : Op
  | reorder (ids : List Nat) : Op

/-- Run one mutation against the modifier state. -/
def applyOp (s : QueryPlanModifier) : Op → QueryPlanModifier
  | .operator i newType => (modifyOperator s i newType).1
  | .reorder ids => (modifyJoinOrder s ids).1

/-- Run a sequence of mutations. -/
def applyOps (s : QueryPlanModifier) (ops : List Op) : QueryPlanModifier :=
  ops.foldl applyOp s

/-- Both mutating operations leave the original snapshot untouched. -/
theorem applyOp_original (s : QueryPlanModifier) (op : Op) :
    (applyOp s op).original_plan = s.original_plan := by
  cases op with
  | operator i newType =>
    rcases hmp : s.modified_plan with _ | p
    · simp only [applyOp, modifyOperator, hmp]
    · rcases hres : (traverseAndModify p.root i newType).2 with _ | m <;>
        simp only [applyOp, modifyOperator, hmp, hres]
  | reorder ids =>
    rcases hmp : s.modified_plan with _ | p
    · simp only [applyOp, modifyJoinOrder, hmp]
    · simp only [applyOp, modifyJoinOrder, hmp]
      split <;> rfl

theorem applyOps_original (s : QueryPlanModifier) (ops : List Op) :
    (applyOps s ops).original_plan = s.original_plan := by
  induction ops generalizing s with
  | nil => rfl
  | cons op rest ih =>
    calc (applyOps (applyOp s op) rest).original_plan
        = (applyOp s op).original_plan := ih _
      _ = s.original_plan := applyOp_original s op

/-- C8: after `set_original_plan(p)` and any sequence of operator and
join-order modifications, `reset_modifications` restores the working
tree to a value equal to `p` and clears the log. -/
theorem C8_reset_round_trip (s : QueryPlanModifier) (p : Plan)
    (ops : List Op) :
    (resetModifications (applyOps (setOriginalPlan s p) ops)).modified_plan
        = some p ∧
    (resetModifications (applyOps (setOriginalPlan s p) ops)).modifications
        = [] := by
  constructor
  · show (applyOps (setOriginalPlan s p) ops).original_plan = some p
    rw [applyOps_original]
    rfl
  · rfl

/-! ### C7: the join reorder is a pairwise pipeline -/

/-- A successful pairwise swap implies both ids resolved. -/
theorem swapStep_ok_finds (t : PNode) (i j : Nat) (t' : PNode)
    (h : swapStep t i j = .ok t') :
    (findNode t i).isSome = true ∧ (findNode t j).isSome = true := by
  unfold swapStep at h
  rcases hi : findNode t i with _ | ni
  · rw [hi] at h; simp at h
  · rcases hj : findNode t j with _ | nj
    · rw [hi, hj] at h; simp at h
    · simp [hi, hj]

/-- C7: for resolvable ids `[a, b, c]` (each pairwise swap of child
lists well defined, i.e. the nodes carry `Plans` keys), the three-id
reorder equals the pipeline of the two adjacent pairwise swaps — the
`[a, b]` reorder producing the intermediate tree `t1`, followed by the
`[b, c]` reorder on the updated tree producing `t2`.  Only the child
lists move; the nodes stay where they are. -/
theorem C7_join_reorder_pipeline (s : QueryPlanModifier) (p : Plan)
    (a b c : Nat) (t1 t2 : PNode)
    (hp : s.modified_plan = some p)
    (h1 : swapStep p.root a b = .ok t1)
    (hc : (findNode p.root c).isSome = true)
    (h2 : swapStep t1 b c = .ok t2) :
    modifyJoinOrder s [a, b, c]
        = ({ s with modified_plan := some ⟨t2⟩ }, true) ∧
    (modifyJoinOrder s [a, b]).1.modified_plan = some ⟨t1⟩ ∧
    modifyJoinOrder (modifyJoinOrder s [a, b]).1 [b, c]
        = ({ s with modified_plan := some ⟨t2⟩ }, true) := by
  obtain ⟨hfa, hfb⟩ := swapStep_ok_finds p.root a b t1 h1
  obtain ⟨hfb1, hfc1⟩ := swapStep_ok_finds t1 b c t2 h2
  have hall3 : ([a, b, c].all fun i => (findNode p.root i).isSome) = true := by
    simp [hfa, hfb, hc]
  have hall2 : ([a, b].all fun i => (findNode p.root i).isSome) = true := by
    simp [hfa, hfb]
  have hall23 : ([b, c].all fun i => (findNode t1 i).isSome) = true := by
    simp [hfb1, hfc1]
  have hloop2 : swapLoop p.root [(a, b), (b, c)] = (t2, true) := by
    simp only [swapLoop, h1, h2]
  have hloop1 : swapLoop p.root [(a, b)] = (t1, true) := by
    simp only [swapLoop, h1]
  have hloop23 : swapLoop t1 [(b, c)] = (t2, true) := by
    simp only [swapLoop, h2]
  have hs1 : (modifyJoinOrder s [a, b]).1
      = { s with modified_plan := some ⟨t1⟩ } := by
    simp only [modifyJoinOrder, hp, hall2, if_true]
    rw [show [a, b].zip [a, b].tail = [(a, b)] from rfl, hloop1]
  refine ⟨?_, ?_, ?_⟩
  · simp only [modifyJoinOrder, hp, hall3, if_true]
    rw [show [a, b, c].zip [a, b, c].tail = [(a, b), (b, c)] from rfl, hloop2]
  · rw [hs1]
  · rw [hs1]
    simp only [modifyJoinOrder, hall23, if_true]
    rw [show [b, c].zip [b, c].tail = [(b, c)] from rfl, hloop23]

/-- A third leaf and a plan of three join nodes with distinct, labelled
child sets, for exercising the reorder pipeline. -/
def exLeafC : PNode := .mk 6 "Seq Scan" (some "c") 1 5 50 4 none

def exJoinC : PNode := .mk 3 "Nested Loop" none 5 50 500 40 (some [exLeafC])

def exRoot3 : PNode :=
  .mk 0 "Hash Join" none 6 60 600 48 (some [exJoinA, exJoinB, exJoinC])

def exPlan3 : Plan := ⟨exRoot3⟩

def exState3 : QueryPlanModifier := ⟨some exPlan3, some exPlan3, []⟩

/-- `exRoot3` after swapping the child lists of nodes 1 and 2. -/
def exT1 : PNode :=
  .mk 0 "Hash Join" none 6 60 600 48 (some
    [.mk 1 "Hash Join" none 3 30 300 24 (some [exLeafB]),
     .mk 2 "Merge Join" none 4 40 400 32 (some [exLeafA]),
     exJoinC])

/-- `exT1` after swapping the (updated) child lists of nodes 2 and 3. -/
def exT2 : PNode :=
  .mk 0 "Hash Join" none 6 60 600 48 (some
    [.mk 1 "Hash Join" none 3 30 300 24 (some [exLeafB]),
     .mk 2 "Merge Join" none 4 40 400 32 (some [exLeafC]),
     .mk 3 "Nested Loop" none 5 50 500 40 (some [exLeafA])])

/-- C7 witness: on the three labelled join nodes the final assignment
is node 1 carrying node 2's old child, node 2 carrying node 3's old
child and node 3 carrying node 1's old child. -/
theorem C7_join_reorder_pipeline_witness :
    modifyJoinOrder exState3 [1, 2, 3]
        = ({ exState3 with modified_plan := some ⟨exT2⟩ }, true) ∧
    (modifyJoinOrder exState3 [1, 2]).1.modified_plan = some ⟨exT1⟩ ∧
    modifyJoinOrder (modifyJoinOrder exState3 [1, 2]).1 [2, 3]
        = ({ exState3 with modified_plan := some ⟨exT2⟩ }, true) :=
  C7_join_reorder_pipeline exState3 exPlan3 1 2 3 exT1 exT2 rfl rfl rfl rfl

/-! ### C9: operator modification locality

A node's own observable state: its identity, every scalar attribute,
and the identities (not the contents) of its direct children.  Two
trees agreeing on `viewAt` for an id agree on that node's attributes
and position-independent shape contribution; `modify_operator` must
change exactly one view, in its `nodeType` only. -/

structure NodeView : Type where
  nid : Nat
  nodeType : String
  relationName : Option String
  startupCost : ℚ
  totalCost : ℚ
  planRows : ℚ
  planWidth : ℚ
  childIds : Option (List Nat)
deriving DecidableEq

def PNode.view : PNode → NodeView
  | .mk i t r sc tc pr pw ps => ⟨i, t, r, sc, tc, pr, pw, ps.map fun l => l.map PNode.nid⟩

def NodeView.retype (v : NodeView) (K : String) : NodeView :=
  { v with nodeType := K }

/-- The view of the (first) node with identity `i`, if any. -/
def viewAt (t : PNode) (i : Nat) : Option NodeView :=
  (findNode t i).map PNode.view

def viewAtList (l : List PNode) (i : Nat) : Option NodeView :=
  (findNodeList l i).map PNode.view

/-! Constructor-form unfolding lemmas for the mutually recursive tree
functions.  (Their auto-generated equations do not reduce definitionally
on open arguments — nested recursion — so rewriting goes through these
propositional forms.) -/

theorem findNode_mk (n : Nat) (t : String) (r : Option String)
    (a b c d : ℚ) (ps : Option (List PNode)) (i : Nat) :
    findNode (.mk n t r a b c d ps) i
      = if n = i then some (.mk n t r a b c d ps)
        else
          match ps with
          | none => none
          | some ch => findNodeList ch i := by
  rw [findNode.eq_def]

theorem findNodeList_nil (i : Nat) : findNodeList [] i = none := by
  rw [findNodeList.eq_def]

theorem findNodeList_cons (x : PNode) (rest : List PNode) (i : Nat) :
    findNodeList (x :: rest) i
      = match findNode x i with
        | some y => some y
        | none => findNodeList rest i := by
  rw [findNodeList.eq_def]

theorem traverseAndModify_mk (n : Nat) (t : String) (r : Option String)
    (a b c d : ℚ) (ps : Option (List PNode)) (i : Nat) (K : String) :
    traverseAndModify (.mk n t r a b c d ps) i K
      = if n = i then
          (.mk n K r a b c d ps, some ⟨i, t, K, relTables r⟩)
        else
          match ps with
          | none => (.mk n t r a b c d none, none)
          | some ch =>
            (.mk n t r a b c d (some (traverseAndModifyList ch i K).1),
              (traverseAndModifyList ch i K).2) := by
  rw [traverseAndModify.eq_def]

theorem traverseAndModifyList_nil (i : Nat) (K : String) :
    traverseAndModifyList [] i K = ([], none) := by
  rw [traverseAndModifyList.eq_def]

theorem traverseAndModifyList_cons (x : PNode) (rest : List PNode)
    (i : Nat) (K : String) :
    traverseAndModifyList (x :: rest) i K
      = match (traverseAndModify x i K).2 with
        | some m => ((traverseAndModify x i K).1 :: rest, some m)
        | none =>
          ((traverseAndModify x i K).1 :: (traverseAndModifyList rest i K).1,
            (traverseAndModifyList rest i K).2) := by
  rw [traverseAndModifyList.eq_def]

/-- What one recursive call of `traverse_and_modify` guarantees for a
subtree: a miss leaves the subtree untouched, the root id is preserved,
and a hit yields the recorded entry, the retyped view at the hit id,
and unchanged views everywhere else. -/
def NodeStmt (t : PNode) (i : Nat) (K : String) : Prop :=
  ((findNode t i = none → traverseAndModify t i K = (t, none)) ∧
    (traverseAndModify t i K).1.nid = t.nid) ∧
  ∀ n, findNode t i = some n →
    (traverseAndModify t i K).2
        = some ⟨i, n.nodeType, K, relTables n.relationName⟩ ∧
    viewAt (traverseAndModify t i K).1 i = some ((PNode.view n).retype K) ∧
    ∀ j, j ≠ i → viewAt (traverseAndModify t i K).1 j = viewAt t j

/-- The list-level analogue of `NodeStmt`, with child-id preservation. -/
def ListStmt (l : List PNode) (i : Nat) (K : String) : Prop :=
  ((findNodeList l i = none → traverseAndModifyList l i K = (l, none)) ∧
    (traverseAndModifyList l i K).1.map PNode.nid = l.map PNode.nid) ∧
  ∀ n, findNodeList l i = some n →
    (traverseAndModifyList l i K).2
        = some ⟨i, n.nodeType, K, relTables n.relationName⟩ ∧
    viewAtList (traverseAndModifyList l i K).1 i
        = some ((PNode.view n).retype K) ∧
    ∀ j, j ≠ i →
      viewAtList (traverseAndModifyList l i K).1 j = viewAtList l j

theorem tam_nil_case : ∀ (i : Nat) (K : String), ListStmt [] i K := by
  intro i K
  unfold ListStmt
  refine ⟨⟨fun _ => rfl, rfl⟩, fun n hn => ?_⟩
  simp [findNodeList_nil] at hn

theorem tam_node_case (nid : Nat) (ty : String) (r : Option String)
    (sc tc pr pw : ℚ) (ps : Option (List PNode))
    (IH : ∀ ch, ps = some ch → ∀ (i : Nat) (K : String), ListStmt ch i K) :
    ∀ (i : Nat) (K : String), NodeStmt (.mk nid ty r sc tc pr pw ps) i K := by
  intro i K
  unfold NodeStmt
  by_cases hni : nid = i
  · subst hni
    refine ⟨⟨fun h => ?_, ?_⟩, fun n hn => ?_⟩
    · simp [findNode_mk] at h
    · simp [traverseAndModify_mk, PNode.nid]
    · have hn' : n = PNode.mk nid ty r sc tc pr pw ps := by
        simp [findNode_mk] at hn
        exact hn.symm
      subst hn'
      refine ⟨?_, ?_, ?_⟩
      · simp [traverseAndModify_mk, PNode.nodeType, PNode.relationName]
      · simp [traverseAndModify_mk, viewAt, findNode_mk, PNode.view, NodeView.retype]
      · intro j hj
        cases ps with
        | none => simp [traverseAndModify_mk, viewAt, findNode_mk, Ne.symm hj]
        | some children => simp [traverseAndModify_mk, viewAt, findNode_mk, Ne.symm hj]
  · cases ps with
    | none =>
      refine ⟨⟨fun h => ?_, ?_⟩, fun n hn => ?_⟩
      · simp [traverseAndModify_mk, hni]
      · simp [traverseAndModify_mk, hni, PNode.nid]
      · simp [findNode_mk, hni] at hn
    | some children =>
      have IHc := IH children rfl
      unfold ListStmt at IHc
      refine ⟨⟨fun h => ?_, ?_⟩, fun n hn => ?_⟩
      · simp only [findNode_mk, if_neg hni] at h
        have hr := (IHc i K).1.1 h
        simp [traverseAndModify_mk, hni, hr]
      · simp [traverseAndModify_mk, hni, PNode.nid]
      · simp only [findNode_mk, if_neg hni] at hn
        obtain ⟨hmod, hview, hframe⟩ := (IHc i K).2 n hn
        refine ⟨?_, ?_, ?_⟩
        · simp [traverseAndModify_mk, hni, hmod]
        · simp only [viewAtList] at hview
          simp [traverseAndModify_mk, viewAt, findNode_mk, hni, hview]
        · intro j hj
          by_cases hnj : nid = j
          · subst hnj
            simp [traverseAndModify_mk, viewAt, findNode_mk, hni, PNode.view,
              (IHc i K).1.2]
          · have hfr := hframe j hj
            simp only [viewAtList] at hfr
            simp [traverseAndModify_mk, viewAt, findNode_mk, hni, hnj, hfr]

theorem tam_cons_case (x : PNode) (rest : List PNode)
    (IHx : ∀ (i : Nat) (K : String), NodeStmt x i K)
    (IHr : ∀ (i : Nat) (K : String), ListStmt rest i K) :
    ∀ (i : Nat) (K : String), ListStmt (x :: rest) i K := by
  intro i K
  unfold ListStmt
  unfold NodeStmt at IHx
  unfold ListStmt at IHr
  rcases hfx : findNode x i with _ | nx
  · have hx : traverseAndModify x i K = (x, none) := (IHx i K).1.1 hfx
    refine ⟨⟨fun h => ?_, ?_⟩, fun n hn => ?_⟩
    · simp only [findNodeList_nil, findNodeList_cons, hfx] at h
      have hr := (IHr i K).1.1 h
      simp [traverseAndModifyList_nil, traverseAndModifyList_cons, hx, hr]
    · simp [traverseAndModifyList_nil, traverseAndModifyList_cons, hx, (IHr i K).1.2]
    · simp only [findNodeList_nil, findNodeList_cons, hfx] at hn
      obtain ⟨hmod, hview, hframe⟩ := (IHr i K).2 n hn
      refine ⟨?_, ?_, ?_⟩
      · simp [traverseAndModifyList_nil, traverseAndModifyList_cons, hx, hmod]
      · simp only [viewAtList] at hview ⊢
        rcases hy : findNodeList (traverseAndModifyList rest i K).1 i with _ | y
        · rw [hy] at hview
          simp at hview
        · rw [hy] at hview
          simp at hview
          simp [traverseAndModifyList_nil, traverseAndModifyList_cons, hx, findNodeList_nil, findNodeList_cons, hfx, hy, hview]
      · intro j hj
        have hfr := hframe j hj
        simp only [viewAtList] at hfr ⊢
        rcases hfj : findNode x j with _ | y
        · simp [traverseAndModifyList_nil, traverseAndModifyList_cons, hx, findNodeList_nil, findNodeList_cons, hfj, hfr]
        · simp [traverseAndModifyList_nil, traverseAndModifyList_cons, hx, findNodeList_nil, findNodeList_cons, hfj]
  · obtain ⟨hmodx, hviewx, hframex⟩ := (IHx i K).2 nx hfx
    refine ⟨⟨fun h => ?_, ?_⟩, fun n hn => ?_⟩
    · simp only [findNodeList_nil, findNodeList_cons, hfx] at h
      exact Option.noConfusion h
    · simp [traverseAndModifyList_nil, traverseAndModifyList_cons, hmodx, (IHx i K).1.2]
    · have hn' : n = nx := by
        simp only [findNodeList_nil, findNodeList_cons, hfx] at hn
        exact (Option.some_inj.mp hn).symm
      subst hn'
      refine ⟨?_, ?_, ?_⟩
      · simp [traverseAndModifyList_nil, traverseAndModifyList_cons, hmodx]
      · simp only [viewAt] at hviewx
        rcases hfy : findNode (traverseAndModify x i K).1 i with _ | y
        · rw [hfy] at hviewx
          simp at hviewx
        · rw [hfy] at hviewx
          simp at hviewx
          simp [traverseAndModifyList_nil, traverseAndModifyList_cons, hmodx, viewAtList, findNodeList_nil, findNodeList_cons, hfy,
            hviewx]
      · intro j hj
        have hfr := hframex j hj
        simp only [viewAt] at hfr
        simp only [viewAtList]
        rcases hfj : findNode x j with _ | y
        · rw [hfj] at hfr
          have hnone : findNode (traverseAndModify x i K).1 j = none := by
            rcases hq : findNode (traverseAndModify x i K).1 j with _ | q
            · rfl
            · rw [hq] at hfr
              simp at hfr
          simp [traverseAndModifyList_nil, traverseAndModifyList_cons, hmodx, findNodeList_nil, findNodeList_cons, hfj, hnone]
        · rw [hfj] at hfr
          rcases hq : findNode (traverseAndModify x i K).1 j with _ | q
          · rw [hq] at hfr
            simp at hfr
          · rw [hq] at hfr
            simp at hfr
            simp [traverseAndModifyList_nil, traverseAndModifyList_cons, hmodx, findNodeList_nil, findNodeList_cons, hfj, hq, hfr]

mutual

theorem tam_spec : ∀ t : PNode, ∀ (i : Nat) (K : String), NodeStmt t i K
  | .mk nid ty r sc tc pr pw none =>
    tam_node_case nid ty r sc tc pr pw none (fun _ h => nomatch h)
  | .mk nid ty r sc tc pr pw (some ch) =>
    tam_node_case nid ty r sc tc pr pw (some ch)
      (fun _ch h => (Option.some_inj.mp h) ▸ tamList_spec ch)

theorem tamList_spec : ∀ l : List PNode, ∀ (i : Nat) (K : String), ListStmt l i K
  | [] => tam_nil_case
  | x :: rest => tam_cons_case x rest (tam_spec x) (tamList_spec rest)

end

/-- C9: when the working tree holds a node with identity `i`,
`modify_operator(i, K)` succeeds, appends exactly the one record built
from that node to the log (so re-modifying the same id twice appends
two records, by applying this theorem to the successive states), and
rewrites the working tree so that the node at `i` differs from its
pre-state only in `operator_kind = K` while every other node keeps its
identity, attributes and child-identity list. -/
theorem C9_operator_locality (s : QueryPlanModifier) (p : Plan) (i : Nat)
    (K : String) (n : PNode)
    (hp : s.modified_plan = some p) (hn : findNode p.root i = some n) :
    (modifyOperator s i K).2 = true ∧
    (modifyOperator s i K).1.modifications
        = s.modifications ++ [⟨i, n.nodeType, K, relTables n.relationName⟩] ∧
    ∃ q : Plan, (modifyOperator s i K).1.modified_plan = some q ∧
      viewAt q.root i = some ((PNode.view n).retype K) ∧
      ∀ j, j ≠ i → viewAt q.root j = viewAt p.root j := by
  have H := tam_spec p.root i K
  unfold NodeStmt at H
  obtain ⟨hmod, hview, hframe⟩ := H.2 n hn
  refine ⟨?_, ?_, ⟨⟨(traverseAndModify p.root i K).1⟩, ?_, ?_, ?_⟩⟩
  · simp only [modifyOperator, hp, hmod]
  · simp only [modifyOperator, hp, hmod]
  · simp only [modifyOperator, hp, hmod]
  · exact hview
  · exact hframe

/-- C9 witness: rewriting node 2 (`Merge Join`) of the example plan to
`Hash Join` succeeds, logs exactly that record, and changes no other
node's view. -/
theorem C9_operator_locality_witness :
    (modifyOperator exState 2 "Hash Join").2 = true ∧
    (modifyOperator exState 2 "Hash Join").1.modifications
        = exState.modifications
            ++ [⟨2, exJoinB.nodeType, "Hash Join",
                 relTables exJoinB.relationName⟩] ∧
    ∃ q : Plan,
      (modifyOperator exState 2 "Hash Join").1.modified_plan = some q ∧
      viewAt q.root 2 = some ((PNode.view exJoinB).retype "Hash Join") ∧
      ∀ j, j ≠ 2 → viewAt q.root j = viewAt exPlan.root j :=
  C9_operator_locality exState exPlan 2 "Hash Join" exJoinB rfl rfl

end WhatIf
